import Mathlib

/-!
Shallow embedding of the keyboard-hook behavioral detector
(`scanner/config.py`, `scanner/keyboard_hook_detector.py`,
`scanner/temporal_analyzer.py`, `scanner/temporal_risk_engine.py`).

Python dicts are modelled as insertion-ordered association lists; the
reserved `"_meta"` key of the risk-state dict is modelled as the separate
`lastSnapshot` field of `EngineState` (its only observable use is
`state.get("_meta", {}).get("last_snapshot", "")` and the final
`state["_meta"]["last_snapshot"] = max_event_time`); timestamps from
`time.time()` are modelled as `Nat`, snapshot tokens stay the strings the
code compares with Python string `>`.
-/

namespace KHD

/-! ## Configuration (`scanner/config.py`) -/

def RISK_DECAY : Int := 5

def RISK_MEDIUM_THRESHOLD : Int := 30

def RISK_HIGH_THRESHOLD : Int := 60

def EVENT_WEIGHTS : List (String × Int) :=
  [("SUSPECT_DETECTED", 15), ("HOOK_APPEARED", 10),
   ("NEW_HOOK_MODULE", 35), ("HOOK_REMOVED", -10)]

def ALLOWLIST : List String :=
  ["discord.exe", "signal.exe", "chrome.exe", "msedge.exe",
   "zoom.exe", "teams.exe", "slack.exe", "steam.exe"]

/-- `EVENT_WEIGHTS.get(etype, 0)`. -/
def weightsGet : List (String × Int) → String → Int
  | [], _ => 0
  | (k, w) :: rest, etype => if k = etype then w else weightsGet rest etype

/-! ## Python string comparison

Snapshot tokens are compared with Python's `>` on strings: lexicographic by
code point.  `charsLt` is that comparison, written structurally so that it
also evaluates inside the kernel; `strLt_iff` below identifies it with the
ambient linear order on `String`. -/

def charsLt : List Char → List Char → Bool
  | _, [] => false
  | [], _ :: _ => true
  | a :: as, b :: bs => if a < b then true else if b < a then false else charsLt as bs

def strLt (a b : String) : Bool := charsLt a.data b.data

/-- Python `max(a, b)` on ints, structurally. -/
def pyMax (a b : Int) : Int := if a < b then b else a

/-- Python `str.lower()` (code-point-wise; the strings involved are ASCII). -/
def strToLower (s : String) : String := String.mk (s.data.map Char.toLower)

def charsPre : List Char → List Char → Bool
  | [], _ => true
  | _ :: _, [] => false
  | a :: as, b :: bs => a = b && charsPre as bs

/-- Python `s.startswith(pre)`. -/
def strStartsWith (s pre : String) : Bool := charsPre pre.data s.data

/-- Python `s.endswith(suf)`. -/
def strEndsWith (s suf : String) : Bool := charsPre suf.data.reverse s.data.reverse

def strIsEmpty (s : String) : Bool := s.data.isEmpty

/-! ## Path helpers (`os.path.basename(...)` / `.lower()` as used by the code) -/

def isPathSep (c : Char) : Bool := c = '/' || c = '\\'

/-- `os.path.basename` (Windows flavour: both separators): the suffix of the
path after the last path separator. -/
def basename (p : String) : String :=
  String.mk ((p.data.reverse.takeWhile (fun c => !isPathSep c)).reverse)

/-! ## Risk state (`temporal_risk_engine.py`) -/

structure RiskState where
  risk_score : Int
  risk_level : String
  event_counts : List (String × Nat)
  first_seen : Nat
  last_seen : Nat
  exe : String
  deriving Repr, DecidableEq

structure Event where
  event : String
  identity : String
  exe : String
  pid : Int
  time : String
  deriving Repr, DecidableEq

/-- `s["event_counts"].get(k, 0)`. -/
def countsGet : List (String × Nat) → String → Nat
  | [], _ => 0
  | (k, n) :: rest, etype => if k = etype then n else countsGet rest etype

/-- `s["event_counts"][k] = s["event_counts"].get(k, 0) + 1` (in-place for an
existing key, appended for a new one, as a Python dict does). -/
def incCount : List (String × Nat) → String → List (String × Nat)
  | [], etype => [(etype, 1)]
  | (k, n) :: rest, etype =>
      if k = etype then (k, n + 1) :: rest else (k, n) :: incCount rest etype

abbrev StateMap := List (String × RiskState)

def lookupId : StateMap → String → Option RiskState
  | [], _ => none
  | (k, v) :: rest, id => if k = id then some v else lookupId rest id

/-- `state[id] = v`: in-place update of an existing key, append of a new one. -/
def setId : StateMap → String → RiskState → StateMap
  | [], id, v => [(id, v)]
  | (k, w) :: rest, id, v =>
      if k = id then (k, v) :: rest else (k, w) :: setId rest id v

/-- The fresh entry built for a previously unseen identity
(`temporal_risk_engine.py` lines 126-133). -/
def freshRiskState (now : Nat) (exe : String) : RiskState :=
  { risk_score := 0, risk_level := "LOW", event_counts := [],
    first_seen := now, last_seen := now, exe := exe }

/-- `if identity not in state: state[identity] = {...}`. -/
def ensureIdentity (now : Nat) (entries : StateMap) (e : Event) : StateMap :=
  if (lookupId entries e.identity).isSome then entries
  else setId entries e.identity (freshRiskState now e.exe)

/-- The weight computation of lines 140-149: allowlist suppression, then the
configured weight gated for `HOOK_APPEARED` / `NEW_HOOK_MODULE` by the
corroborating baseline.  `counts` is the event-count map *after* the current
event was counted, exactly as the Python code mutates it before the check. -/
def eventWeight (e : Event) (s : RiskState) (counts : List (String × Nat)) : Int :=
  if strToLower (basename s.exe) ∈ ALLOWLIST then 0
  else
    let w := weightsGet EVENT_WEIGHTS e.event
    if (e.event = "HOOK_APPEARED" ∨ e.event = "NEW_HOOK_MODULE") ∧
        ¬ (0 < countsGet counts "SUSPECT_DETECTED" ∨ 0 < s.risk_score) then 0
    else w

/-- One iteration of the ingest loop (lines 120-156) for one retained event. -/
def applyEvent (now : Nat) (entries : StateMap) (e : Event) : StateMap :=
  let entries1 := ensureIdentity now entries e
  match lookupId entries1 e.identity with
  | none => entries1
  | some s =>
      let counts := incCount s.event_counts e.event
      let weight := eventWeight e s counts
      setId entries1 e.identity
        { s with event_counts := counts,
                 risk_score := s.risk_score + weight,
                 last_seen := now }

/-- Threshold classification (lines 171-176). -/
def classifyLevel (score : Int) : String :=
  if RISK_HIGH_THRESHOLD ≤ score then "HIGH"
  else if RISK_MEDIUM_THRESHOLD ≤ score then "MEDIUM"
  else "LOW"

/-- The per-identity body of the decay-and-reclassify loop (lines 158-176). -/
def decayReclassify (now : Nat) (s : RiskState) : RiskState :=
  let score := pyMax 0 (s.risk_score - RISK_DECAY)
  { s with risk_score := score, last_seen := now,
           risk_level := classifyLevel score }

def decayAll (now : Nat) (m : StateMap) : StateMap :=
  m.map (fun kv => (kv.1, decayReclassify now kv.2))

structure EngineState where
  entries : StateMap
  /-- `state.get("_meta", {}).get("last_snapshot", "")`. -/
  lastSnapshot : String
  deriving Repr, DecidableEq

/-- The watermark filter (lines 111-114): keep events whose token is strictly
newer (Python string `>`) than the stored watermark. -/
def filteredEvents (last : String) (events : List Event) : List Event :=
  events.filter (fun e => strLt last e.time)

/-- One step of the `max_event_time` accumulation (lines 113-116): the inner
comparison runs only for events that passed the watermark filter. -/
def maxStep (last : String) (m : String) (e : Event) : String :=
  if strLt last e.time then (if strLt m e.time then e.time else m) else m

/-- `max_event_time` as computed by the same single pass (lines 109-116). -/
def maxEventTime (last : String) (events : List Event) : String :=
  events.foldl (maxStep last) last

/-- `update_temporal_risk(events)` (lines 99-197), with the file round-trip
made explicit: the loaded state and `time.time()` come in, the state that is
saved comes out. -/
def update_temporal_risk (st : EngineState) (now : Nat) (events : List Event) :
    EngineState :=
  let last := st.lastSnapshot
  let filtered := filteredEvents last events
  let maxt := maxEventTime last events
  let ingested := filtered.foldl (applyEvent now) st.entries
  { entries := decayAll now ingested, lastSnapshot := maxt }

/-! ## Temporal event extractor (`temporal_analyzer.py`) -/

/-- One record of an identity's timeline (`history[identity]` entries,
lines 100-105).  `dlls` is the Python set of module paths; we keep it as the
list of added elements, all set operations below depending only on
membership and emptiness. -/
structure Observation where
  time : String
  pid : Int
  exe : String
  dlls : List String
  deriving Repr, DecidableEq

/-- Python set difference `a - b`, used only through emptiness. -/
def setDiff (a b : List String) : List String :=
  a.filter (fun x => decide (x ∉ b))

/-- The events `analyze` emits for one consecutive pair `(prev, curr)` of a
timeline (lines 124-160): the three independent checks, in source order. -/
def transitionEvents (identity : String) (prev curr : Observation) : List Event :=
  (if prev.dlls.isEmpty && !curr.dlls.isEmpty then
     [{ event := "HOOK_APPEARED", identity := identity, exe := curr.exe,
        pid := curr.pid, time := curr.time }]
   else []) ++
  (if !(setDiff curr.dlls prev.dlls).isEmpty then
     [{ event := "NEW_HOOK_MODULE", identity := identity, exe := curr.exe,
        pid := curr.pid, time := curr.time }]
   else []) ++
  (if !(setDiff prev.dlls curr.dlls).isEmpty then
     [{ event := "HOOK_REMOVED", identity := identity, exe := curr.exe,
        pid := curr.pid, time := curr.time }]
   else [])

def pairwiseTransitions (identity : String) : List Observation → List Event
  | r1 :: r2 :: rest =>
      transitionEvents identity r1 r2 ++ pairwiseTransitions identity (r2 :: rest)
  | _ => []

/-- The events `analyze` emits for one identity's timeline (lines 111-160):
the `SUSPECT_DETECTED` baseline on the first record, then the pairwise
transition diffs. -/
def identityEvents (identity : String) : List Observation → List Event
  | [] => []
  | first :: rest =>
      { event := "SUSPECT_DETECTED", identity := identity, exe := first.exe,
        pid := first.pid, time := first.time }
        :: pairwiseTransitions identity (first :: rest)

/-! ## Capability scanner (`keyboard_hook_detector.py`) -/

structure ModuleEvidence where
  dll : String
  signed : Bool
  hash : Option String
  deriving Repr, DecidableEq

inductive SuspectEntry where
  | dllSuspect (pid : Int) (executable : String) (create_time : Int)
      (suspicious_modules : List ModuleEvidence)
  | exeSuspect (pid : Int) (executable : String) (create_time : Int)
      (signed : Bool) (hash : Option String)
  deriving Repr, DecidableEq

/-- The per-process input from the external enumerator: `proc.info` fields
and the paths of `proc.memory_maps()`.  `memAccessible = false` models the
`psutil.AccessDenied` / `psutil.NoSuchProcess` raised while enumerating the
maps. -/
structure ProcInfo where
  pid : Int
  exe : Option String
  create_time : Option Int
  memAccessible : Bool
  modules : List String
  deriving Repr, DecidableEq

/-- Python truthiness of the `exe` field (`not exe` is true for `None` and `""`). -/
def truthyStr : Option String → Bool
  | none => false
  | some s => !(strIsEmpty s)

/-- Python truthiness of `create_time` (`not create_time` is true for `None` and `0`). -/
def truthyTime : Option Int → Bool
  | none => false
  | some t => t != 0

def listContainsSub (pat : List Char) : List Char → Bool
  | [] => pat.isEmpty
  | c :: rest => charsPre pat (c :: rest) || listContainsSub pat rest

/-- Python `pat in s` on strings. -/
def containsSubstr (s pat : String) : Bool :=
  listContainsSub pat.data s.data

/-- The per-process body of `detect_keyboard_hook_suspects` (lines 70-133),
with the external signature and hash services passed in (`is_signed`,
`sha256`) and the OS installation directory `windowsDir` (the lower-cased
`WINDOWS_DIR` read from the environment in `config.py`).  Returns the
appended suspect entry, or `none` when the process is skipped. -/
def classifyProcess (windowsDir : String) (sig : String → Bool)
    (hsh : String → Option String) (p : ProcInfo) : Option SuspectEntry :=
  if !(truthyStr p.exe) || !(truthyTime p.create_time) then none
  else
    match p.exe, p.create_time with
    | some exe, some ct =>
        if strToLower (basename exe) ∈ ALLOWLIST then none
        else if !p.memAccessible then none
        else
          let paths := p.modules.filter (fun m => !(strIsEmpty m))
          let foundUser32 := paths.any
            (fun m => containsSubstr (strToLower m) "user32.dll")
          let suspicious := paths.filter
            (fun m => strEndsWith (strToLower m) ".dll" &&
              !(strStartsWith (strToLower m) windowsDir))
          if !foundUser32 then none
          else if !suspicious.isEmpty then
            some (.dllSuspect p.pid exe ct
              (suspicious.map (fun d => { dll := d, signed := sig d, hash := hsh d })))
          else if strStartsWith (strToLower exe) windowsDir then none
          else some (.exeSuspect p.pid exe ct (sig exe) (hsh exe))
    | _, _ => none

/-! ## Atomic persistence (`temporal_risk_engine.py` `save_state`,
lines 30-96).  The filesystem is reduced to the canonical artifact and its
sibling temp file; each write attempt either succeeds, fails before the temp
file is touched (`PermissionError` at `open`), or fails after a half write.
The schedule list supplies the outcome of each of the `max_retries = 3`
attempts; the booleans supply the outcomes of the remove / rename steps. -/

inductive WriteOutcome where
  | ok
  | failOpen
  | failMid
  deriving Repr, DecidableEq

structure FileSys where
  canonical : Option String
  temp : Option String
  deriving Repr, DecidableEq

/-- The write-retry loop (lines 36-71).  Returns the filesystem and whether
the loop raised (`raise` on the last attempt, with no temp cleanup on that
path). -/
def writeLoop (content : String) (fs : FileSys) : List WriteOutcome → FileSys × Bool
  | [] => (fs, true)
  | .ok :: _ => ({ fs with temp := some content }, false)
  | .failOpen :: rest => writeLoop content fs rest
  | .failMid :: rest => writeLoop content { fs with temp := some "half" } rest

/-- The `except IOError` handler (lines 88-96): remove the temp file, re-raise. -/
def cleanupRaise (fs : FileSys) : FileSys × Bool :=
  ({ fs with temp := none }, true)

def doRename (renameOk : Bool) (fs : FileSys) : FileSys × Bool :=
  if renameOk then ({ canonical := fs.temp, temp := none }, false)
  else cleanupRaise fs

/-- The rename phase (lines 73-96): on Windows, remove the canonical file
first (with one retry), then rename; on POSIX, a single atomic rename. -/
def renamePhase (isNt : Bool) (remove1Ok remove2Ok renameOk : Bool)
    (fs : FileSys) : FileSys × Bool :=
  if isNt then
    if fs.canonical.isSome then
      if remove1Ok then doRename renameOk { fs with canonical := none }
      else if remove2Ok then doRename renameOk { fs with canonical := none }
      else cleanupRaise fs
    else doRename renameOk fs
  else doRename renameOk fs

/-- `save_state` (lines 30-96) over the abstract filesystem: the write-retry
loop, then—only if it did not raise—the remove/rename phase.  The returned
boolean is `true` when the call raises to the caller. -/
def save_state (isNt : Bool) (schedule : List WriteOutcome)
    (remove1Ok remove2Ok renameOk : Bool) (content : String)
    (fs : FileSys) : FileSys × Bool :=
  match writeLoop content fs schedule with
  | (fs1, true) => (fs1, true)
  | (fs1, false) => renamePhase isNt remove1Ok remove2Ok renameOk fs1

/-! ## Helper lemmas about the association-list state -/

theorem lookupId_setId_self (m : StateMap) (k : String) (v : RiskState) :
    lookupId (setId m k v) k = some v := by
  induction m with
  | nil => simp [setId, lookupId]
  | cons kv rest ih =>
      obtain ⟨k1, v1⟩ := kv
      by_cases h : k1 = k
      · simp [setId, lookupId, h]
      · simp [setId, lookupId, h, ih]

theorem lookupId_setId_ne (m : StateMap) (k other : String) (v : RiskState)
    (h : other ≠ k) : lookupId (setId m k v) other = lookupId m other := by
  induction m with
  | nil => simp [setId, lookupId, Ne.symm h]
  | cons kv rest ih =>
      obtain ⟨k1, v1⟩ := kv
      by_cases hk : k1 = k
      · subst hk
        simp [setId, lookupId, Ne.symm h]
      · simp [setId, lookupId, hk, ih]

theorem countsGet_incCount_ne (counts : List (String × Nat)) (etype k : String)
    (h : k ≠ etype) : countsGet (incCount counts etype) k = countsGet counts k := by
  induction counts with
  | nil => simp [incCount, countsGet, Ne.symm h]
  | cons kv rest ih =>
      obtain ⟨k1, n1⟩ := kv
      by_cases hk : k1 = etype
      · subst hk
        simp [incCount, countsGet, Ne.symm h]
      · simp [incCount, countsGet, hk, ih]

theorem lookupId_decayAll (m : StateMap) (now : Nat) (id : String) :
    lookupId (decayAll now m) id = (lookupId m id).map (decayReclassify now) := by
  induction m with
  | nil => simp [decayAll, lookupId]
  | cons kv rest ih =>
      obtain ⟨k1, v1⟩ := kv
      by_cases h : k1 = id
      · simp [decayAll, lookupId, h]
      · simpa [decayAll, lookupId, h] using ih

theorem lookupId_ensureIdentity_ne (now : Nat) (m : StateMap) (e : Event)
    (id : String) (h : e.identity ≠ id) :
    lookupId (ensureIdentity now m e) id = lookupId m id := by
  unfold ensureIdentity
  split
  · rfl
  · exact lookupId_setId_ne m e.identity id _ (fun hh => h hh.symm)

theorem lookupId_applyEvent_ne (now : Nat) (m : StateMap) (e : Event)
    (id : String) (h : e.identity ≠ id) :
    lookupId (applyEvent now m e) id = lookupId m id := by
  unfold applyEvent
  cases hc : lookupId (ensureIdentity now m e) e.identity with
  | none =>
      simp only [hc]
      exact lookupId_ensureIdentity_ne now m e id h
  | some s =>
      simp only [hc]
      rw [lookupId_setId_ne _ _ _ _ (Ne.symm h)]
      exact lookupId_ensureIdentity_ne now m e id h

theorem lookupId_foldl_applyEvent_ne (now : Nat) (id : String) :
    ∀ (evs : List Event) (m : StateMap), (∀ e ∈ evs, e.identity ≠ id) →
      lookupId (evs.foldl (applyEvent now) m) id = lookupId m id := by
  intro evs
  induction evs with
  | nil => intro m _; rfl
  | cons e rest ih =>
      intro m h
      have h1 : e.identity ≠ id := h e (List.mem_cons_self e rest)
      have h2 : ∀ x ∈ rest, x.identity ≠ id := fun x hx => h x (List.mem_cons_of_mem e hx)
      calc lookupId ((e :: rest).foldl (applyEvent now) m) id
          = lookupId (rest.foldl (applyEvent now) (applyEvent now m e)) id := rfl
        _ = lookupId (applyEvent now m e) id := ih (applyEvent now m e) h2
        _ = lookupId m id := lookupId_applyEvent_ne now m e id h1

/-! ## Helper lemmas about the watermark computation -/

theorem charsLt_iff : ∀ as bs : List Char, charsLt as bs = true ↔ as < bs := by
  intro as
  induction as with
  | nil =>
      intro bs
      cases bs with
      | nil =>
          simp only [charsLt]
          constructor
          · intro h; cases h
          · intro h; cases h
      | cons b bs =>
          simp only [charsLt, true_iff]
          exact List.Lex.nil
  | cons a as ih =>
      intro bs
      cases bs with
      | nil =>
          simp only [charsLt]
          constructor
          · intro h; cases h
          · intro h; cases h
      | cons b bs =>
          by_cases h1 : a < b
          · simp only [charsLt, if_pos h1, true_iff]
            exact List.Lex.rel h1
          · by_cases h2 : b < a
            · simp only [charsLt, if_neg h1, if_pos h2]
              constructor
              · intro h; cases h
              · intro h
                cases h with
                | cons h => exact absurd h2 (lt_irrefl a)
                | rel h => exact absurd h h1
            · have heq : a = b := le_antisymm (not_lt.mp h2) (not_lt.mp h1)
              subst heq
              simp only [charsLt, if_neg h1, if_neg h2]
              rw [ih bs]
              constructor
              · intro h; exact List.Lex.cons h
              · intro h
                cases h with
                | cons h => exact h
                | rel h => exact absurd h h1

theorem strLt_iff (a b : String) : strLt a b = true ↔ a < b :=
  (charsLt_iff a.data b.data).trans (String.lt_iff_toList_lt).symm

theorem le_maxStep (last m : String) (e : Event) : m ≤ maxStep last m e := by
  unfold maxStep
  by_cases h1 : strLt last e.time = true
  · rw [if_pos h1]
    by_cases h2 : strLt m e.time = true
    · rw [if_pos h2]
      exact le_of_lt ((strLt_iff m e.time).mp h2)
    · rw [if_neg h2]
  · rw [if_neg h1]

theorem time_le_maxStep (last m : String) (e : Event) (h : last < e.time) :
    e.time ≤ maxStep last m e := by
  unfold maxStep
  rw [if_pos ((strLt_iff last e.time).mpr h)]
  by_cases h2 : strLt m e.time = true
  · rw [if_pos h2]
  · rw [if_neg h2]
    exact le_of_not_lt (fun hlt => h2 ((strLt_iff m e.time).mpr hlt))

theorem le_foldl_maxStep (last : String) :
    ∀ (evs : List Event) (m : String), m ≤ evs.foldl (maxStep last) m := by
  intro evs
  induction evs with
  | nil => intro m; exact le_refl m
  | cons e rest ih =>
      intro m
      exact le_trans (le_maxStep last m e) (ih (maxStep last m e))

theorem mem_time_le_foldl (last : String) :
    ∀ (evs : List Event) (m : String) (e : Event), e ∈ evs → last < e.time →
      e.time ≤ evs.foldl (maxStep last) m := by
  intro evs
  induction evs with
  | nil => intro m e he _; cases he
  | cons a rest ih =>
      intro m e he ht
      rcases List.mem_cons.mp he with h | h
      · subst h
        exact le_trans (time_le_maxStep last m e ht) (le_foldl_maxStep last rest _)
      · exact ih (maxStep last m a) e h ht

theorem le_maxEventTime (last : String) (evs : List Event) :
    last ≤ maxEventTime last evs :=
  le_foldl_maxStep last evs last

theorem time_le_maxEventTime (last : String) (evs : List Event) (e : Event)
    (he : e ∈ evs) (ht : last < e.time) : e.time ≤ maxEventTime last evs :=
  mem_time_le_foldl last evs last e he ht

theorem maxEventTime_of_no_newer (last : String) :
    ∀ evs : List Event, (∀ e ∈ evs, ¬ last < e.time) →
      maxEventTime last evs = last := by
  intro evs
  induction evs with
  | nil => intro _; rfl
  | cons e rest ih =>
      intro h
      have h1 : ¬ last < e.time := h e (List.mem_cons_self e rest)
      have : maxStep last last e = last := by
        unfold maxStep
        rw [if_neg (fun hb => h1 ((strLt_iff last e.time).mp hb))]
      calc maxEventTime last (e :: rest)
          = (e :: rest).foldl (maxStep last) last := rfl
        _ = rest.foldl (maxStep last) (maxStep last last e) := rfl
        _ = rest.foldl (maxStep last) last := by rw [this]
        _ = last := ih (fun x hx => h x (List.mem_cons_of_mem e hx))

theorem pyMax_eq_max (a b : Int) : pyMax a b = max a b := by
  unfold pyMax; split <;> omega

theorem decayReclassify_score (now : Nat) (s : RiskState) :
    (decayReclassify now s).risk_score = pyMax 0 (s.risk_score - RISK_DECAY) := rfl

theorem decayReclassify_last_seen (now : Nat) (s : RiskState) :
    (decayReclassify now s).last_seen = now := rfl

/-! ## Claim theorems -/

/-- **C5.** After every invocation of `update_temporal_risk`, every identity
present in the resulting state has a non-negative `risk_score`, for all
inputs (in particular for event lists full of `HOOK_REMOVED` events whose
configured weight is negative): the final decay loop replaces every score by
`max(0, score - RISK_DECAY)`. -/
theorem c5_risk_score_nonneg (st : EngineState) (now : Nat) (evs : List Event)
    (id : String) (s : RiskState)
    (h : lookupId (update_temporal_risk st now evs).entries id = some s) :
    0 ≤ s.risk_score := by
  simp only [update_temporal_risk] at h
  rw [lookupId_decayAll] at h
  obtain ⟨s0, _, hs0⟩ := Option.map_eq_some'.mp h
  rw [← hs0, decayReclassify_score, pyMax_eq_max]
  exact le_max_left 0 _

/-- Witness for C5: a `HOOK_REMOVED` flood still ends with score `0 ≥ 0`. -/
theorem c5_witness :
    0 ≤ (RiskState.mk 0 "LOW" [("HOOK_REMOVED", 3)] 7 7 "k.exe").risk_score :=
  c5_risk_score_nonneg ⟨[], ""⟩ 7
    [⟨"HOOK_REMOVED", "a|1", "k.exe", 1, "t1"⟩,
     ⟨"HOOK_REMOVED", "a|1", "k.exe", 1, "t2"⟩,
     ⟨"HOOK_REMOVED", "a|1", "k.exe", 1, "t3"⟩]
    "a|1" _ (by decide)

/-- **C9.** Every invocation of `update_temporal_risk` stamps `last_seen` of
*every* identity in the resulting state with the invocation's current time,
untouched identities included: the decay loop assigns `last_seen = now`
unconditionally, so `last_seen` records the last engine cycle, not the last
event observed for that identity. -/
theorem c9_last_seen_is_cycle_time (st : EngineState) (now : Nat)
    (evs : List Event) (id : String) (s : RiskState)
    (h : lookupId (update_temporal_risk st now evs).entries id = some s) :
    s.last_seen = now := by
  simp only [update_temporal_risk] at h
  rw [lookupId_decayAll] at h
  obtain ⟨s0, _, hs0⟩ := Option.map_eq_some'.mp h
  rw [← hs0, decayReclassify_last_seen]

/-- Witness for C9: an identity already in the state that receives no event
still gets `last_seen = 42`. -/
theorem c9_witness :
    (RiskState.mk 15 "LOW" [] 1 42 "b.exe").last_seen = 42 :=
  c9_last_seen_is_cycle_time
    ⟨[("b|2", RiskState.mk 20 "LOW" [] 1 1 "b.exe")], "t9"⟩ 42 [] "b|2" _
    (by decide)

theorem applyEvent_eq_of_lookup (now : Nat) (entries : StateMap) (e : Event)
    (s : RiskState)
    (hs : lookupId (ensureIdentity now entries e) e.identity = some s) :
    applyEvent now entries e =
      setId (ensureIdentity now entries e) e.identity
        { s with event_counts := incCount s.event_counts e.event,
                 risk_score :=
                   s.risk_score + eventWeight e s (incCount s.event_counts e.event),
                 last_seen := now } := by
  simp only [applyEvent, hs]

theorem ensureIdentity_of_some (now : Nat) (entries : StateMap) (e : Event)
    (s : RiskState) (hs : lookupId entries e.identity = some s) :
    ensureIdentity now entries e = entries := by
  unfold ensureIdentity
  rw [hs]
  rfl

theorem ensureIdentity_of_none (now : Nat) (entries : StateMap) (e : Event)
    (hs : lookupId entries e.identity = none) :
    ensureIdentity now entries e = setId entries e.identity (freshRiskState now e.exe) := by
  unfold ensureIdentity
  rw [hs]
  rfl

/-- **C2.** In the ingest step, a `HOOK_APPEARED` or `NEW_HOOK_MODULE` event
for a non-allowlisted identity contributes weight 0 to `risk_score` when, at
the moment the event is applied, the recorded `SUSPECT_DETECTED` count is
zero and the score is not positive; with a corroborating baseline (a recorded
`SUSPECT_DETECTED` or an already-positive score) the configured weight — a
positive one for these two kinds — is applied instead. -/
theorem c2_gated_weight (now : Nat) (entries : StateMap) (e : Event)
    (s : RiskState)
    (hk : e.event = "HOOK_APPEARED" ∨ e.event = "NEW_HOOK_MODULE")
    (hs : lookupId (ensureIdentity now entries e) e.identity = some s)
    (hal : strToLower (basename s.exe) ∉ ALLOWLIST) :
    (countsGet s.event_counts "SUSPECT_DETECTED" = 0 → s.risk_score ≤ 0 →
      ∃ s2, lookupId (applyEvent now entries e) e.identity = some s2 ∧
        s2.risk_score = s.risk_score) ∧
    ((0 < countsGet s.event_counts "SUSPECT_DETECTED" ∨ 0 < s.risk_score) →
      ∃ s2, lookupId (applyEvent now entries e) e.identity = some s2 ∧
        s2.risk_score = s.risk_score + weightsGet EVENT_WEIGHTS e.event) ∧
    0 < weightsGet EVENT_WEIGHTS e.event := by
  have hne : "SUSPECT_DETECTED" ≠ e.event := by
    rcases hk with h | h <;> rw [h] <;> decide
  have hcount : countsGet (incCount s.event_counts e.event) "SUSPECT_DETECTED"
      = countsGet s.event_counts "SUSPECT_DETECTED" :=
    countsGet_incCount_ne s.event_counts e.event "SUSPECT_DETECTED" hne
  rw [applyEvent_eq_of_lookup now entries e s hs]
  refine ⟨?_, ?_, ?_⟩
  · intro hz hnp
    refine ⟨_, lookupId_setId_self _ _ _, ?_⟩
    have hw : eventWeight e s (incCount s.event_counts e.event) = 0 := by
      unfold eventWeight
      rw [if_neg hal, if_pos]
      exact ⟨hk, by rw [hcount, hz]; simp; omega⟩
    simp [hw]
  · intro hbase
    refine ⟨_, lookupId_setId_self _ _ _, ?_⟩
    have hw : eventWeight e s (incCount s.event_counts e.event)
        = weightsGet EVENT_WEIGHTS e.event := by
      unfold eventWeight
      rw [if_neg hal, if_neg]
      intro hcond
      exact hcond.2 (by rwa [hcount])
    simp [hw]
  · rcases hk with h | h <;> rw [h] <;> decide

/-- Witness for C2 (zero-baseline branch): a first-time `HOOK_APPEARED` for a
fresh identity leaves the score at 0. -/
theorem c2_witness :
    ∃ s2,
      lookupId (applyEvent 5 [] ⟨"HOOK_APPEARED", "h|1", "h.exe", 2, "t1"⟩) "h|1"
        = some s2 ∧ s2.risk_score = (freshRiskState 5 "h.exe").risk_score :=
  (c2_gated_weight 5 [] ⟨"HOOK_APPEARED", "h|1", "h.exe", 2, "t1"⟩
    (freshRiskState 5 "h.exe") (Or.inl rfl) (by decide) (by decide)).1
    (by decide) (by decide)

/-- **C8.** A retained event whose identity's *stored* executable has an
allowlisted base name (lower-cased) is applied with weight 0, whatever the
event kind: the count is still recorded but the score does not move. -/
theorem c8_allowlist_suppression (now : Nat) (entries : StateMap) (e : Event)
    (s : RiskState)
    (hs : lookupId (ensureIdentity now entries e) e.identity = some s)
    (hal : strToLower (basename s.exe) ∈ ALLOWLIST) :
    ∃ s2, lookupId (applyEvent now entries e) e.identity = some s2 ∧
      s2.risk_score = s.risk_score ∧
      s2.event_counts = incCount s.event_counts e.event := by
  rw [applyEvent_eq_of_lookup now entries e s hs]
  refine ⟨_, lookupId_setId_self _ _ _, ?_, rfl⟩
  have hw : eventWeight e s (incCount s.event_counts e.event) = 0 := by
    unfold eventWeight
    rw [if_pos hal]
  simp [hw]

/-- Witness for C8: a `NEW_HOOK_MODULE` event for Discord does not move the
score 9. -/
theorem c8_witness :
    ∃ s2,
      lookupId
        (applyEvent 6
          [("d|1", RiskState.mk 9 "LOW" [] 1 1 "C:\\x\\Discord.exe")]
          ⟨"NEW_HOOK_MODULE", "d|1", "C:\\x\\Discord.exe", 3, "t2"⟩) "d|1"
        = some s2 ∧
      s2.risk_score = (RiskState.mk 9 "LOW" [] 1 1 "C:\\x\\Discord.exe").risk_score ∧
      s2.event_counts =
        incCount (RiskState.mk 9 "LOW" [] 1 1 "C:\\x\\Discord.exe").event_counts
          "NEW_HOOK_MODULE" :=
  c8_allowlist_suppression 6
    [("d|1", RiskState.mk 9 "LOW" [] 1 1 "C:\\x\\Discord.exe")]
    ⟨"NEW_HOOK_MODULE", "d|1", "C:\\x\\Discord.exe", 3, "t2"⟩
    (RiskState.mk 9 "LOW" [] 1 1 "C:\\x\\Discord.exe") (by decide) (by decide)

/-- **C10.** A retained event of an unrecognized kind is still ingested:
for an unseen identity it creates a fresh `RiskState` with score 0 and level
`LOW`, it increments `event_counts` for that kind, and it always contributes
weight 0 (the kind is absent from `EVENT_WEIGHTS`, whose lookup defaults
to 0, and the gate does not apply). -/
theorem c10_unknown_kind_ingested (now : Nat) (entries : StateMap) (e : Event)
    (hk1 : e.event ≠ "SUSPECT_DETECTED") (hk2 : e.event ≠ "HOOK_APPEARED")
    (hk3 : e.event ≠ "NEW_HOOK_MODULE") (hk4 : e.event ≠ "HOOK_REMOVED") :
    (lookupId entries e.identity = none →
      lookupId (applyEvent now entries e) e.identity =
        some { risk_score := 0, risk_level := "LOW",
               event_counts := [(e.event, 1)], first_seen := now,
               last_seen := now, exe := e.exe }) ∧
    (∀ s, lookupId entries e.identity = some s →
      ∃ s2, lookupId (applyEvent now entries e) e.identity = some s2 ∧
        s2.risk_score = s.risk_score ∧
        s2.event_counts = incCount s.event_counts e.event ∧
        s2.risk_level = s.risk_level) := by
  have hw : weightsGet EVENT_WEIGHTS e.event = 0 := by
    simp [weightsGet, EVENT_WEIGHTS, Ne.symm hk1, Ne.symm hk2, Ne.symm hk3,
      Ne.symm hk4]
  have hwz : ∀ (s : RiskState) (counts : List (String × Nat)),
      eventWeight e s counts = 0 := by
    intro s counts
    unfold eventWeight
    split
    · rfl
    · simp [hw]
  constructor
  · intro hnone
    have hens : ensureIdentity now entries e
        = setId entries e.identity (freshRiskState now e.exe) :=
      ensureIdentity_of_none now entries e hnone
    have hlook : lookupId (ensureIdentity now entries e) e.identity
        = some (freshRiskState now e.exe) := by
      rw [hens]; exact lookupId_setId_self _ _ _
    rw [applyEvent_eq_of_lookup now entries e _ hlook, lookupId_setId_self]
    simp [freshRiskState, incCount, hwz]
  · intro s hsome
    have hens : ensureIdentity now entries e = entries :=
      ensureIdentity_of_some now entries e s hsome
    have hlook : lookupId (ensureIdentity now entries e) e.identity = some s := by
      rw [hens]; exact hsome
    rw [applyEvent_eq_of_lookup now entries e s hlook]
    refine ⟨_, lookupId_setId_self _ _ _, ?_, rfl, rfl⟩
    simp [hwz]

/-- Witness for C10: an event of kind `"WEIRD"` for a fresh identity. -/
theorem c10_witness :
    lookupId (applyEvent 3 [] ⟨"WEIRD", "u|1", "u.exe", 1, "t1"⟩) "u|1" =
      some { risk_score := 0, risk_level := "LOW",
             event_counts := [("WEIRD", 1)], first_seen := 3,
             last_seen := 3, exe := "u.exe" } :=
  (c10_unknown_kind_ingested 3 [] ⟨"WEIRD", "u|1", "u.exe", 1, "t1"⟩
    (by decide) (by decide) (by decide) (by decide)).1 rfl

/-- **C4.** For a pair of consecutive observations of the same identity with
equal suspicious-module path sets, `analyze` emits no `HOOK_APPEARED`,
`NEW_HOOK_MODULE`, or `HOOK_REMOVED` event for that transition. -/
theorem c4_no_events_on_unchanged_sets (identity : String)
    (prev curr : Observation) (h : ∀ x, x ∈ prev.dlls ↔ x ∈ curr.dlls) :
    transitionEvents identity prev curr = [] := by
  have hsub1 : setDiff curr.dlls prev.dlls = [] := by
    apply List.filter_eq_nil_iff.mpr
    intro x hx
    simp only [decide_eq_true_eq, Decidable.not_not]
    exact (h x).mpr hx
  have hsub2 : setDiff prev.dlls curr.dlls = [] := by
    apply List.filter_eq_nil_iff.mpr
    intro x hx
    simp only [decide_eq_true_eq, Decidable.not_not]
    exact (h x).mp hx
  have hemp : (prev.dlls.isEmpty && !curr.dlls.isEmpty) = false := by
    cases hc : curr.dlls with
    | nil => simp [hc]
    | cons y ys =>
        have hy : y ∈ prev.dlls := (h y).mpr (by rw [hc]; exact List.mem_cons_self y ys)
        cases hp : prev.dlls with
        | nil => rw [hp] at hy; cases hy
        | cons z zs => simp [hp]
  simp [transitionEvents, hsub1, hsub2, hemp]

/-- Witness for C4: same one-module set on both sides, no transition event. -/
theorem c4_witness :
    transitionEvents "w|3" ⟨"s1", 4, "w.exe", ["h.dll"]⟩
      ⟨"s2", 4, "w.exe", ["h.dll"]⟩ = [] :=
  c4_no_events_on_unchanged_sets "w|3" _ _ (fun _ => Iff.rfl)

theorem no_event_newer_than_max (st : EngineState) (E : List Event) :
    ∀ e ∈ E, ¬ maxEventTime st.lastSnapshot E < e.time := by
  intro e he
  by_cases h : st.lastSnapshot < e.time
  · exact not_lt.mpr (time_le_maxEventTime st.lastSnapshot E e he h)
  · intro hc
    exact h (lt_of_le_of_lt (le_maxEventTime st.lastSnapshot E) hc)

/-- **C1.** Invoking `update_temporal_risk` twice in succession with the same
event list changes per-identity risk state only on the first call: on the
second call every event token fails the strictly-newer-than-watermark filter
(first conjunct), so that the second call is exactly the unconditional
decay-and-reclassify pass over every identity with the watermark left
unchanged (second conjunct). -/
theorem c1_second_invocation_is_decay_only (st : EngineState)
    (now1 now2 : Nat) (E : List Event) :
    filteredEvents (update_temporal_risk st now1 E).lastSnapshot E = [] ∧
    update_temporal_risk (update_temporal_risk st now1 E) now2 E =
      { entries := decayAll now2 (update_temporal_risk st now1 E).entries,
        lastSnapshot := (update_temporal_risk st now1 E).lastSnapshot } := by
  have h1 : (update_temporal_risk st now1 E).lastSnapshot
      = maxEventTime st.lastSnapshot E := rfl
  have hnone : ∀ e ∈ E, ¬ maxEventTime st.lastSnapshot E < e.time :=
    no_event_newer_than_max st E
  have hfil : filteredEvents (maxEventTime st.lastSnapshot E) E = [] := by
    apply List.filter_eq_nil_iff.mpr
    intro e he
    exact fun hb => hnone e he ((strLt_iff _ _).mp hb)
  have hmax : maxEventTime (maxEventTime st.lastSnapshot E) E
      = maxEventTime st.lastSnapshot E :=
    maxEventTime_of_no_newer (maxEventTime st.lastSnapshot E) E hnone
  constructor
  · rw [h1]
    exact hfil
  · show update_temporal_risk (update_temporal_risk st now1 E) now2 E = _
    simp only [update_temporal_risk, h1, hfil, hmax, List.foldl_nil]

/-! ## Iterated invocations (for C3) -/

def iterUpdate : EngineState → List (Nat × List Event) → EngineState
  | st, [] => st
  | st, (now, evs) :: rest => iterUpdate (update_temporal_risk st now evs) rest

/-- The identity `id` receives zero retained events in each of the listed
invocations: no event surviving the watermark filter of the state current at
that invocation carries this identity. -/
def NoRetained (id : String) : EngineState → List (Nat × List Event) → Prop
  | _, [] => True
  | st, (now, evs) :: rest =>
      (∀ e ∈ filteredEvents st.lastSnapshot evs, e.identity ≠ id) ∧
      NoRetained id (update_temporal_risk st now evs) rest

/-- Iterated clamped decay, one step per invocation. -/
def clampIter : Nat → Int → Int
  | 0, x => x
  | k + 1, x => clampIter k (pyMax 0 (x - RISK_DECAY))

theorem update_untouched (st : EngineState) (now : Nat) (evs : List Event)
    (id : String) (s : RiskState)
    (hev : ∀ e ∈ filteredEvents st.lastSnapshot evs, e.identity ≠ id)
    (hs : lookupId st.entries id = some s) :
    lookupId (update_temporal_risk st now evs).entries id
      = some (decayReclassify now s) := by
  simp only [update_temporal_risk]
  rw [lookupId_decayAll,
    lookupId_foldl_applyEvent_ne now id (filteredEvents st.lastSnapshot evs)
      st.entries hev, hs]
  rfl

theorem iterUpdate_lookup (id : String) :
    ∀ (invs : List (Nat × List Event)) (st : EngineState) (s : RiskState),
      lookupId st.entries id = some s → NoRetained id st invs →
      ∃ s2, lookupId (iterUpdate st invs).entries id = some s2 ∧
        s2.risk_score = clampIter invs.length s.risk_score := by
  intro invs
  induction invs with
  | nil => intro st s hs _; exact ⟨s, hs, rfl⟩
  | cons inv rest ih =>
      intro st s hs hn
      obtain ⟨now, evs⟩ := inv
      simp only [NoRetained] at hn
      obtain ⟨h1, h2⟩ := hn
      have hstep := update_untouched st now evs id s h1 hs
      obtain ⟨s2, hl, hsc⟩ :=
        ih (update_temporal_risk st now evs) (decayReclassify now s) hstep h2
      refine ⟨s2, hl, ?_⟩
      rw [hsc, decayReclassify_score]
      rfl

theorem clampIter_eq_max : ∀ (k : Nat) (x : Int), 1 ≤ k →
    clampIter k x = max 0 (x - (k : Int) * RISK_DECAY) := by
  intro k
  induction k with
  | zero => intro x h; exact absurd h (by decide)
  | succ k ih =>
      intro x h
      by_cases hk : 1 ≤ k
      · rw [clampIter, ih _ hk, pyMax_eq_max]
        simp only [RISK_DECAY]
        push_cast
        omega
      · have hk0 : k = 0 := by omega
        subst hk0
        simp only [clampIter, pyMax_eq_max, RISK_DECAY]
        push_cast
        omega

/-- **C3.** An identity that receives zero retained events across `k ≥ 1`
consecutive invocations of `update_temporal_risk` ends with
`risk_score = max(0, score_0 - k·RISK_DECAY)`: the decay subtraction is
applied exactly once per invocation to every identity, untouched ones
included. -/
theorem c3_decay_determinism (st : EngineState)
    (invs : List (Nat × List Event)) (id : String) (s : RiskState)
    (hs : lookupId st.entries id = some s) (hn : NoRetained id st invs)
    (hk : invs ≠ []) :
    ∃ s2, lookupId (iterUpdate st invs).entries id = some s2 ∧
      s2.risk_score = max 0 (s.risk_score - (invs.length : Int) * RISK_DECAY) := by
  obtain ⟨s2, hl, hsc⟩ := iterUpdate_lookup id invs st s hs hn
  refine ⟨s2, hl, ?_⟩
  rw [hsc, clampIter_eq_max invs.length s.risk_score]
  exact Nat.one_le_iff_ne_zero.mpr (fun h0 => hk (List.length_eq_zero.mp h0))

/-- Witness for C3: an identity at score 12 and two event-free invocations
ends at `max(0, 12 - 2·5) = 2`. -/
theorem c3_witness :
    ∃ s2,
      lookupId
        (iterUpdate ⟨[("a|1", RiskState.mk 12 "LOW" [] 0 0 "a.exe")], "t0"⟩
          [(1, []), (2, [])]).entries "a|1" = some s2 ∧
      s2.risk_score =
        max 0 ((RiskState.mk 12 "LOW" [] 0 0 "a.exe").risk_score
          - (([(1, ([] : List Event)), (2, [])].length : Int)) * RISK_DECAY) :=
  c3_decay_determinism ⟨[("a|1", RiskState.mk 12 "LOW" [] 0 0 "a.exe")], "t0"⟩
    [(1, []), (2, [])] "a|1" (RiskState.mk 12 "LOW" [] 0 0 "a.exe")
    (by decide) (by simp [NoRetained, filteredEvents]) (by decide)

/-- **C6.** For a live process with resolvable executable path and creation
time, a non-allowlisted base name, and the OS keyboard-hook module
(`user32.dll`) among its loaded modules: if some loaded `.dll` lies outside
the OS installation directory the process is reported as `DLL_HOOK_SUSPECT`
with signed/hash evidence per flagged module; otherwise, if the executable
itself is outside that directory, as `EXE_HOOK_SUSPECT` with signature and
hash of the executable; otherwise it is not reported. -/
theorem c6_classifier_branches (windowsDir : String) (sig : String → Bool)
    (hsh : String → Option String) (p : ProcInfo) (exe : String) (ct : Int)
    (hexe : p.exe = some exe) (hexe2 : strIsEmpty exe = false)
    (hct : p.create_time = some ct) (hct2 : ct ≠ 0)
    (hmem : p.memAccessible = true)
    (hal : strToLower (basename exe) ∉ ALLOWLIST)
    (hu32 : ∃ m ∈ p.modules, strIsEmpty m = false ∧
      containsSubstr (strToLower m) "user32.dll" = true) :
    ((∃ m ∈ p.modules, strIsEmpty m = false ∧
        strEndsWith (strToLower m) ".dll" = true ∧
        strStartsWith (strToLower m) windowsDir = false) →
      classifyProcess windowsDir sig hsh p =
        some (.dllSuspect p.pid exe ct
          (((p.modules.filter (fun m => !(strIsEmpty m))).filter
              (fun m => strEndsWith (strToLower m) ".dll" &&
                !(strStartsWith (strToLower m) windowsDir))).map
            (fun d => { dll := d, signed := sig d, hash := hsh d })))) ∧
    ((∀ m ∈ p.modules, strIsEmpty m = false →
        strEndsWith (strToLower m) ".dll" = true →
        strStartsWith (strToLower m) windowsDir = true) →
      strStartsWith (strToLower exe) windowsDir = false →
      classifyProcess windowsDir sig hsh p =
        some (.exeSuspect p.pid exe ct (sig exe) (hsh exe))) ∧
    ((∀ m ∈ p.modules, strIsEmpty m = false →
        strEndsWith (strToLower m) ".dll" = true →
        strStartsWith (strToLower m) windowsDir = true) →
      strStartsWith (strToLower exe) windowsDir = true →
      classifyProcess windowsDir sig hsh p = none) := by
  have htr : (!(truthyStr (some exe)) || !(truthyTime (some ct))) = false := by
    simp [truthyStr, truthyTime, hexe2, hct2]
  have hfu : (p.modules.filter (fun m => !(strIsEmpty m))).any
      (fun m => containsSubstr (strToLower m) "user32.dll") = true := by
    obtain ⟨m, hm, hne, hc⟩ := hu32
    exact List.any_eq_true.mpr
      ⟨m, List.mem_filter.mpr ⟨hm, by rw [hne]; rfl⟩, hc⟩
  refine ⟨?_, ?_, ?_⟩
  · intro hdll
    obtain ⟨m, hm, hne, hend, hstart⟩ := hdll
    have hmem2 : m ∈ (p.modules.filter (fun m => !(strIsEmpty m))).filter
        (fun m => strEndsWith (strToLower m) ".dll" &&
          !(strStartsWith (strToLower m) windowsDir)) :=
      List.mem_filter.mpr
        ⟨List.mem_filter.mpr ⟨hm, by rw [hne]; rfl⟩,
         by rw [hend, hstart]; rfl⟩
    have hnonempty : ((p.modules.filter (fun m => !(strIsEmpty m))).filter
        (fun m => strEndsWith (strToLower m) ".dll" &&
          !(strStartsWith (strToLower m) windowsDir))).isEmpty = false := by
      cases hc : (p.modules.filter (fun m => !(strIsEmpty m))).filter
          (fun m => strEndsWith (strToLower m) ".dll" &&
            !(strStartsWith (strToLower m) windowsDir)) with
      | nil => rw [hc] at hmem2; cases hmem2
      | cons a l => rfl
    simp only [classifyProcess, hexe, hct, hmem, htr, hal, hfu]
    simp [hnonempty]
    exact ⟨m, hm, hend, hstart, hne⟩
  · intro hnodll hout
    have hempty : (p.modules.filter (fun m => !(strIsEmpty m))).filter
        (fun m => strEndsWith (strToLower m) ".dll" &&
          !(strStartsWith (strToLower m) windowsDir)) = [] := by
      apply List.filter_eq_nil_iff.mpr
      intro m hm
      obtain ⟨hm1, hm2⟩ := List.mem_filter.mp hm
      intro hb
      obtain ⟨hb1, hb2⟩ : strEndsWith (strToLower m) ".dll" = true ∧
          strStartsWith (strToLower m) windowsDir = false := by simpa using hb
      have hcontra : strStartsWith (strToLower m) windowsDir = true :=
        hnodll m hm1 (by simpa using hm2) hb1
      rw [hcontra] at hb2
      cases hb2
    simp [classifyProcess, hexe, hct, hmem, htr, hal, hfu, hempty, hout]
  · intro hnodll hin
    have hempty : (p.modules.filter (fun m => !(strIsEmpty m))).filter
        (fun m => strEndsWith (strToLower m) ".dll" &&
          !(strStartsWith (strToLower m) windowsDir)) = [] := by
      apply List.filter_eq_nil_iff.mpr
      intro m hm
      obtain ⟨hm1, hm2⟩ := List.mem_filter.mp hm
      intro hb
      obtain ⟨hb1, hb2⟩ : strEndsWith (strToLower m) ".dll" = true ∧
          strStartsWith (strToLower m) windowsDir = false := by simpa using hb
      have hcontra : strStartsWith (strToLower m) windowsDir = true :=
        hnodll m hm1 (by simpa using hm2) hb1
      rw [hcontra] at hb2
      cases hb2
    simp [classifyProcess, hexe, hct, hmem, htr, hal, hfu, hempty, hin]

/-- Witness for C6 (DLL branch): one off-OS-directory hook DLL yields a
`DLL_HOOK_SUSPECT` entry with per-module evidence. -/
theorem c6_witness :
    classifyProcess "c:\\windows" (fun _ => false) (fun _ => none)
      ⟨9, some "C:\\evil\\k.exe", some 5, true,
        ["C:\\Windows\\System32\\user32.dll", "C:\\evil\\hook.dll"]⟩ =
      some (.dllSuspect 9 "C:\\evil\\k.exe" 5
        [{ dll := "C:\\evil\\hook.dll", signed := false, hash := none }]) := by
  have h := c6_classifier_branches "c:\\windows" (fun _ => false) (fun _ => none)
    ⟨9, some "C:\\evil\\k.exe", some 5, true,
      ["C:\\Windows\\System32\\user32.dll", "C:\\evil\\hook.dll"]⟩
    "C:\\evil\\k.exe" 5 rfl (by decide) rfl (by decide) rfl (by decide)
    ⟨"C:\\Windows\\System32\\user32.dll", by decide, by decide, by decide⟩
  have h1 := h.1 ⟨"C:\\evil\\hook.dll", by decide, by decide, by decide, by decide⟩
  rw [h1]
  rfl

/-- **C7** concerns `save_state` / `analyze` durable-write failure handling.
The risk-state path violates it: when the first write attempt fails after a
half write and the remaining attempts fail at `open`, the retry loop's final
`raise` propagates without the temp-file cleanup (which only exists in the
rename step's exception handler), so the caller sees the failure with the
half-written temp file still on disk (canonical file untouched). -/
theorem c7_retry_exhaustion_leaves_temp :
    save_state false [.failMid, .failOpen, .failOpen] true true true "new"
      ⟨some "old", none⟩ = (⟨some "old", some "half"⟩, true) := rfl

end KHD
